import Mathlib

/-!
Verification of the acquisition-and-cache subsystem of
`beancount-price-fetcher` (Rust sources `src/main.rs`, `src/cache.rs`,
`src/openexchangerate.rs`) against its natural-language specification.

Dates (`chrono::NaiveDate`) are modelled as integers counting days, so that
`d + Duration::days(1)` becomes `d + 1` and the `NaiveDate` ordering becomes
the integer ordering.  `anyhow::Error` is modelled as `String`.  Decimal rates
are modelled as rationals.  The asynchronous pipeline built with
`stream::iter(dates).map(get_historical).buffer_unordered(p)` is modelled by
the list of per-day fetch results; `buffer_unordered` yields results in
completion order, i.e. in an arbitrary permutation of the per-day results,
which the theorems quantify over.  The `.expect` panic in
`get_time_series_with_historical` is modelled by an `Option` layer: `none`
is the panic.
-/

abbrev Date := Int

abbrev Err := String

/-- Model of `commodity::exchange_rate::ExchangeRate` as used by this
repository: a reference date, a capture timestamp, a base currency and a
mapping from currency identifier to decimal rate. -/
structure ExchangeRate where
  date : Option Date
  obtained_datetime : Option Nat
  base : Option String
  rates : List (String × ℚ)
deriving DecidableEq

/-- Model of the `TimeSeries` struct of `src/main.rs`: a
`BTreeMap<NaiveDate, ExchangeRate>`, represented as an association list kept
strictly sorted by key. -/
structure TimeSeries where
  map : List (Date × ExchangeRate)
deriving DecidableEq

/-- The in-memory map of the cache (`BTreeMap<NaiveDate, ExchangeRate>` in
`src/cache.rs`), same sorted-association-list representation. -/
abbrev CacheMap := List (Date × ExchangeRate)

/-- `BTreeMap::insert` on the sorted-association-list representation:
place the new pair before the first strictly larger key, replacing an equal
key. -/
def btInsert (k : Date) (v : ExchangeRate) : CacheMap → CacheMap
  | [] => [(k, v)]
  | (k2, v2) :: rest =>
    if k < k2 then (k, v) :: (k2, v2) :: rest
    else if k = k2 then (k, v) :: rest
    else (k2, v2) :: btInsert k v rest

/-- `BTreeMap::get` on the representation. -/
def btLookup (k : Date) : CacheMap → Option ExchangeRate
  | [] => none
  | (k2, v2) :: rest => if k = k2 then some v2 else btLookup k rest

/-- `BTreeMap::remove` on the representation (on key-unique maps, removing
every pair with the given key coincides with removing the unique one). -/
def btErase (k : Date) : CacheMap → CacheMap
  | [] => []
  | (k2, v2) :: rest =>
    if k = k2 then btErase k rest else (k2, v2) :: btErase k rest

/-- The `while &dt <= end` loop of `get_time_series_with_historical`
(`src/main.rs:107-112`) pushes `start, start+1, ...` while `dt <= end`:
`(end + 1 - start).toNat` iterations. -/
def dateRangeAux : Nat → Date → List Date
  | 0, _ => []
  | Nat.succ n, d => d :: dateRangeAux n (d + 1)

/-- The `dates` vector built by `get_time_series_with_historical`: one `Date`
per calendar day of the closed range `[start, end]`, ascending; empty when
`start > end`. -/
def dateRange (s e : Date) : List Date :=
  dateRangeAux (e + 1 - s).toNat s

/-- The dates on which `get_time_series_with_historical` invokes the rate
source (`src/main.rs:114-119`): every element of `dates` is fed into a
`get_historical` request through `buffer_unordered`; no cache is consulted
(the function has no cache parameter). -/
def rateSourceRequests (s e : Date) : List Date :=
  dateRange s e

/-- The result-collection loop of `get_time_series_with_historical`
(`src/main.rs:123-133`): each `Ok` rate is inserted into the `BTreeMap`
keyed by `exchange_rate.date.expect(..)` — `none` models that panic when
`date` is absent — and the first `Err` aborts the whole fold. -/
def foldResults (acc : CacheMap) : List (Except Err ExchangeRate) → Option (Except Err TimeSeries)
  | [] => some (Except.ok ⟨acc⟩)
  | Except.ok r :: rest =>
    match r.date with
    | some d => foldResults (btInsert d r acc) rest
    | none => none
  | Except.error e :: _ => some (Except.error e)

/-- `get_time_series_with_historical` (`src/main.rs:96-136`), parameterised
by the per-day fetch `get_historical(client, app_id, date, include)`.  The
results are folded here in date order; theorems about completion order apply
`foldResults` to permutations of this result list. -/
def get_time_series_with_historical (fetch : Date → Except Err ExchangeRate)
    (start_d end_d : Date) : Option (Except Err TimeSeries) :=
  foldResults [] ((dateRange start_d end_d).map fetch)

/-- The `(date, rate)` pairs a result list contributes to the series map. -/
def resultPairs (res : List (Except Err ExchangeRate)) : List (Date × ExchangeRate) :=
  res.filterMap fun x =>
    match x with
    | Except.ok r =>
      match r.date with
      | some d => some (d, r)
      | none => none
    | Except.error _ => none

/-- Folding a list of `(date, rate)` pairs into a map by repeated
`BTreeMap::insert`. -/
def insertPairs (acc : CacheMap) (ps : List (Date × ExchangeRate)) : CacheMap :=
  ps.foldl (fun m p => btInsert p.1 p.2 m) acc

instance : IsAntisymm (Date × ExchangeRate) (fun p q => p.1 < q.1) :=
  ⟨fun p _ h1 h2 => absurd (lt_trans h1 h2) (lt_irrefl p.1)⟩

/-- `end_date.signed_duration_since(start_date).num_days()`
(`src/main.rs:340-341`): the number of whole days from start to end. -/
def expected_requests (start_d end_d : Date) : Int :=
  end_d - start_d

/-- The pre-flight quota comparison of the `series` command
(`src/main.rs:344`): the command errors out iff
`expected_requests > requests_remaining as i64`. -/
def quota_check_fails (start_d end_d : Date) (requests_remaining : Nat) : Bool :=
  decide (expected_requests start_d end_d > (requests_remaining : Int))

/-- The filesystem facts `FileExchangeRateCache::open` consults
(`src/cache.rs:18-32`): `cache_file.exists()`, `cache_file.is_file()`, the
outcome of `File::open` (a handle, abstractly a `Nat`), and the outcome of
`bincode::deserialize_from` on that handle. -/
structure Fs where
  fileExists : Bool
  isFile : Bool
  openFile : Except Err Nat
  deserializeFrom : Nat → Except Err CacheMap

/-- `FileExchangeRateCache::open` (`src/cache.rs:18-32`): when the path
exists and is a file, open it and deserialize (either failure propagates via
`?`); otherwise start from an empty map. -/
def openCache (fs : Fs) : Except Err CacheMap :=
  if fs.fileExists && fs.isFile then
    match fs.openFile with
    | Except.ok f => fs.deserializeFrom f
    | Except.error e => Except.error e
  else Except.ok []

/-- Modelled from the spec (§4.1): the body of
`FileExchangeRateCache::get_exchange_rate` in `src/cache.rs:36-38` is a
`todo!()` stub; the spec says `get(date)` is a pure lookup in the in-memory
map that never touches disk. -/
def get_exchange_rate (c : CacheMap) (d : Date) : Option ExchangeRate :=
  btLookup d c

/-- Modelled from the spec (§4.1): the body of
`FileExchangeRateCache::put_exchange_rate` in `src/cache.rs:39-53` is a
`todo!()` stub; the spec says `put(date, rate)` updates the in-memory map
synchronously and returns the previous value, if any. -/
def put_exchange_rate (c : CacheMap) (d : Date) (r : ExchangeRate) :
    Option ExchangeRate × CacheMap :=
  (btLookup d c, btInsert d r c)

/-- Modelled from the spec (§4.1): the body of
`FileExchangeRateCache::remove_exchange_rate` in `src/cache.rs:54-56` is a
`todo!()` stub; the spec says `remove(date)` is symmetric to `put`. -/
def remove_exchange_rate (c : CacheMap) (d : Date) :
    Option ExchangeRate × CacheMap :=
  (btLookup d c, btErase d c)

/-- Model of the `OpenExchangeRate` response struct
(`src/openexchangerate.rs:9-14`): a Unix timestamp (u32), a base currency
and a currency-to-decimal map. -/
structure OpenExchangeRate where
  timestamp : Nat
  base : String
  rates : List (String × ℚ)

/-- `NaiveDateTime::from_timestamp(ts, 0).date()` as a day count: seconds
since the epoch divided by 86400 (the timestamp is a `u32`, hence
non-negative). -/
def timestampDate (ts : Nat) : Date :=
  Int.ofNat (ts / 86400)

/-- The `Into<ExchangeRate>` conversion for `OpenExchangeRate`
(`src/openexchangerate.rs:16-27`), with `Utc::now()` passed in as `now`:
`date` is always `Some`, derived from the response timestamp. -/
def OpenExchangeRate.into (o : OpenExchangeRate) (now : Nat) : ExchangeRate :=
  { date := some (timestampDate o.timestamp)
    obtained_datetime := some now
    base := some o.base
    rates := o.rates }

/-- Modelled from the spec (§3, §4.1): the planned coalescing background
writer of `FileExchangeRateCache` is only a design sketch in the comment of
`src/cache.rs:40-51`; the spec describes an in-memory map, a single-slot
pending-write buffer holding the most recent unsaved state (a new mutation
overwrites what is waiting), an at-most-one in-flight flush, and the on-disk
snapshot. -/
structure WriterState where
  mem : CacheMap
  slot : Option CacheMap
  flushing : Option CacheMap
  disk : CacheMap
deriving DecidableEq

/-- Modelled from the spec (§3, §4.1): the events of the coalescing writer.
A mutation (`put`/`remove`) updates the map synchronously and deposits the
new full snapshot into the slot, replacing whatever was waiting; the writer
drains the slot only when no flush is in flight; finishing a flush installs
the flushed state on disk. -/
inductive WriterStep : WriterState → WriterState → Prop
  | put (st : WriterState) (d : Date) (r : ExchangeRate) :
      WriterStep st
        { mem := btInsert d r st.mem
          slot := some (btInsert d r st.mem)
          flushing := st.flushing
          disk := st.disk }
  | remove (st : WriterState) (d : Date) :
      WriterStep st
        { mem := btErase d st.mem
          slot := some (btErase d st.mem)
          flushing := st.flushing
          disk := st.disk }
  | beginFlush (st : WriterState) (m : CacheMap) :
      st.slot = some m → st.flushing = none →
      WriterStep st { mem := st.mem, slot := none, flushing := some m, disk := st.disk }
  | endFlush (st : WriterState) (m : CacheMap) :
      st.flushing = some m →
      WriterStep st { mem := st.mem, slot := st.slot, flushing := none, disk := m }

/-- Modelled from the spec (§4.1): at cache open the slot is empty, the
writer is idle and the in-memory map equals the deserialized on-disk
snapshot. -/
def writerInit (m0 : CacheMap) : WriterState :=
  { mem := m0, slot := none, flushing := none, disk := m0 }

/-- Reflexive-transitive closure of `WriterStep`. -/
inductive WriterReachable (init : WriterState) : WriterState → Prop
  | refl : WriterReachable init init
  | step {s t : WriterState} : WriterReachable init s → WriterStep s t →
      WriterReachable init t

/-- The inductive invariant of the coalescing writer: any waiting or
in-flight snapshot that has not been superseded equals the current in-memory
map, and when nothing is waiting or in flight the disk equals memory. -/
def writerInv (st : WriterState) : Prop :=
  (st.slot = none → st.flushing = none → st.disk = st.mem) ∧
  (∀ m, st.slot = some m → m = st.mem) ∧
  (∀ m, st.flushing = some m → st.slot = none → m = st.mem)

/-- A concrete rate whose `date` field is `some 0` regardless of the
requested day. -/
def c1Rate : ExchangeRate :=
  { date := some 0, obtained_datetime := some 0, base := some "USD", rates := [] }

/-- A fetch whose every response carries the same date `0`. -/
def c1Fetch : Date → Except Err ExchangeRate :=
  fun _ => Except.ok c1Rate

/-- A fetch whose response for day `d` carries date `d`. -/
def c1OkFetch : Date → Except Err ExchangeRate :=
  fun d => Except.ok
    { date := some d, obtained_datetime := some 0, base := some "USD", rates := [] }

/-- A fetch that fails on day `1` and succeeds (with the requested date)
elsewhere. -/
def c3Fetch : Date → Except Err ExchangeRate :=
  fun d =>
    if d = 1 then Except.error "http 500"
    else Except.ok
      { date := some d, obtained_datetime := some 0, base := some "USD", rates := [] }

/-- A fetch whose response for day `d` carries date `d` and a distinctive
payload. -/
def c4Fetch : Date → Except Err ExchangeRate :=
  fun d => Except.ok
    { date := some d, obtained_datetime := some 7, base := some "EUR", rates := [] }

/-- A successful response carrying date `0`, capture time `0`. -/
def c4RateA : ExchangeRate :=
  { date := some 0, obtained_datetime := some 0, base := some "USD", rates := [] }

/-- A different successful response also carrying date `0` (capture time
`1`). -/
def c4RateB : ExchangeRate :=
  { date := some 0, obtained_datetime := some 1, base := some "USD", rates := [] }

/-- A fetch over `[0, 1]` whose two responses both succeed but both carry
response date `0`: day `0` yields `c4RateA`, day `1` yields `c4RateB`. -/
def c4CollideFetch : Date → Except Err ExchangeRate :=
  fun d => if d = 0 then Except.ok c4RateA else Except.ok c4RateB

/-- A concrete cached rate for day `0`. -/
def c5Rate : ExchangeRate :=
  { date := some 0, obtained_datetime := some 3, base := some "USD", rates := [("AUD", 2)] }

/-- A concrete snapshot entry used for the `open` scenarios. -/
def c8Rate : ExchangeRate :=
  { date := some 5, obtained_datetime := some 9, base := some "USD", rates := [] }

/-- Filesystem with nothing at the cache path. -/
def fsAbsent : Fs :=
  { fileExists := false, isFile := false
    openFile := Except.ok 0, deserializeFrom := fun _ => Except.ok [] }

/-- Filesystem with a decodable snapshot file at the cache path. -/
def fsFound : Fs :=
  { fileExists := true, isFile := true
    openFile := Except.ok 7, deserializeFrom := fun _ => Except.ok [(5, c8Rate)] }

/-- Filesystem with an undecodable file at the cache path. -/
def fsCorrupt : Fs :=
  { fileExists := true, isFile := true
    openFile := Except.ok 7, deserializeFrom := fun _ => Except.error "bincode: invalid" }

/-- Filesystem where opening the existing file fails. -/
def fsDenied : Fs :=
  { fileExists := true, isFile := true
    openFile := Except.error "permission denied", deserializeFrom := fun _ => Except.ok [] }

/-- A concrete provider response. -/
def c10Oer : OpenExchangeRate :=
  { timestamp := 1590000000, base := "USD", rates := [("AUD", 3 / 2)] }

/-- A fetch returning only converted provider responses. -/
def c10Fetch : Date → Except Err ExchangeRate :=
  fun _ => Except.ok (OpenExchangeRate.into c10Oer 42)

/-- A concrete rate written during the writer-model witness trace. -/
def c7Rate : ExchangeRate :=
  { date := some 2, obtained_datetime := some 1, base := some "USD", rates := [] }

/-- Writer state after `put 2 c7Rate` on a freshly opened empty cache. -/
def c7s1 : WriterState :=
  { mem := btInsert 2 c7Rate []
    slot := some (btInsert 2 c7Rate [])
    flushing := none
    disk := [] }

/-- Writer state after the background writer drains the slot and starts the
flush. -/
def c7s2 : WriterState :=
  { mem := btInsert 2 c7Rate []
    slot := none
    flushing := some (btInsert 2 c7Rate [])
    disk := [] }

/-- Writer state after the flush completes: idle, snapshot on disk. -/
def c7s3 : WriterState :=
  { mem := btInsert 2 c7Rate []
    slot := none
    flushing := none
    disk := btInsert 2 c7Rate [] }

/-! ### Lemmas about the sorted-association-list model of `BTreeMap` -/

theorem mem_keys_btInsert (b k : Date) (v : ExchangeRate) :
    ∀ m : CacheMap, b ∈ (btInsert k v m).map Prod.fst → b = k ∨ b ∈ m.map Prod.fst := by
  intro m
  induction m with
  | nil =>
    intro h
    simp [btInsert] at h
    exact Or.inl h
  | cons p rest ih =>
    obtain ⟨k2, v2⟩ := p
    intro h
    simp only [btInsert] at h
    split_ifs at h with h1 h2
    · simpa using h
    · rcases (by simpa using h : b = k ∨ b ∈ rest.map Prod.fst) with hb | hb
      · exact Or.inl hb
      · exact Or.inr (by simp [hb])
    · rcases (by simpa using h : b = k2 ∨ b ∈ (btInsert k v rest).map Prod.fst) with hb | hb
      · exact Or.inr (by simp [hb])
      · rcases ih hb with hb2 | hb2
        · exact Or.inl hb2
        · exact Or.inr (by simp [hb2])

theorem btInsert_sorted (k : Date) (v : ExchangeRate) :
    ∀ m : CacheMap, (m.map Prod.fst).Sorted (· < ·) →
      ((btInsert k v m).map Prod.fst).Sorted (· < ·) := by
  intro m
  induction m with
  | nil =>
    intro _
    simp [btInsert]
  | cons p rest ih =>
    obtain ⟨k2, v2⟩ := p
    intro hs
    rw [List.map_cons, List.sorted_cons] at hs
    obtain ⟨hk2, hrest⟩ := hs
    simp only [btInsert]
    split_ifs with h1 h2
    · rw [List.map_cons, List.sorted_cons]
      refine ⟨?_, ?_⟩
      · intro b hb
        rw [List.map_cons] at hb
        rcases List.mem_cons.mp hb with hb | hb
        · exact hb ▸ h1
        · exact lt_trans h1 (hk2 b hb)
      · rw [List.map_cons, List.sorted_cons]
        exact ⟨hk2, hrest⟩
    · subst h2
      rw [List.map_cons, List.sorted_cons]
      exact ⟨hk2, hrest⟩
    · have h3 : k2 < k := (le_of_not_lt h1).lt_of_ne (Ne.symm h2)
      rw [List.map_cons, List.sorted_cons]
      refine ⟨?_, ih hrest⟩
      intro b hb
      rcases mem_keys_btInsert b k v rest hb with hb2 | hb2
      · exact hb2 ▸ h3
      · exact hk2 b hb2

theorem btInsert_perm (k : Date) (v : ExchangeRate) :
    ∀ m : CacheMap, k ∉ m.map Prod.fst → (btInsert k v m).Perm ((k, v) :: m) := by
  intro m
  induction m with
  | nil =>
    intro _
    simp [btInsert]
  | cons p rest ih =>
    obtain ⟨k2, v2⟩ := p
    intro hk
    rw [List.map_cons, List.mem_cons] at hk
    push_neg at hk
    obtain ⟨hne, hnmem⟩ := hk
    simp only [btInsert]
    rw [if_neg hne]
    split_ifs with h1
    · exact List.Perm.refl _
    · have p1 : ((k2, v2) :: btInsert k v rest).Perm ((k2, v2) :: (k, v) :: rest) :=
        (ih hnmem).cons _
      exact p1.trans (List.Perm.swap (k, v) (k2, v2) rest)

theorem btLookup_btInsert (k : Date) (v : ExchangeRate) :
    ∀ m : CacheMap, btLookup k (btInsert k v m) = some v := by
  intro m
  induction m with
  | nil => simp [btInsert, btLookup]
  | cons p rest ih =>
    obtain ⟨k2, v2⟩ := p
    simp only [btInsert]
    split_ifs with h1 h2
    · simp [btLookup]
    · simp [btLookup]
    · simp only [btLookup, if_neg h2]
      exact ih

theorem btLookup_btErase (k : Date) :
    ∀ m : CacheMap, btLookup k (btErase k m) = none := by
  intro m
  induction m with
  | nil => simp [btErase, btLookup]
  | cons p rest ih =>
    obtain ⟨k2, v2⟩ := p
    simp only [btErase]
    split_ifs with h1
    · exact ih
    · simp only [btLookup, if_neg h1]
      exact ih

theorem insertPairs_sorted :
    ∀ (ps : List (Date × ExchangeRate)) (acc : CacheMap),
      (acc.map Prod.fst).Sorted (· < ·) →
      ((insertPairs acc ps).map Prod.fst).Sorted (· < ·) := by
  intro ps
  induction ps with
  | nil =>
    intro acc h
    exact h
  | cons p rest ih =>
    intro acc h
    exact ih (btInsert p.1 p.2 acc) (btInsert_sorted p.1 p.2 acc h)

theorem insertPairs_perm :
    ∀ (ps : List (Date × ExchangeRate)) (acc : CacheMap),
      (ps.map Prod.fst).Nodup →
      (∀ x ∈ ps.map Prod.fst, x ∉ acc.map Prod.fst) →
      (insertPairs acc ps).Perm (acc ++ ps) := by
  intro ps
  induction ps with
  | nil =>
    intro acc _ _
    simp [insertPairs]
  | cons p rest ih =>
    intro acc hnd hdisj
    obtain ⟨k, v⟩ := p
    have hk : k ∉ acc.map Prod.fst := hdisj k (by simp)
    rw [List.map_cons, List.nodup_cons] at hnd
    obtain ⟨hknotrest, hnd2⟩ := hnd
    have hdisj2 : ∀ x ∈ rest.map Prod.fst, x ∉ (btInsert k v acc).map Prod.fst := by
      intro x hx hmem
      rcases mem_keys_btInsert x k v acc hmem with h | h
      · exact hknotrest (h ▸ hx)
      · exact hdisj x (by simp [hx]) h
    have ihp : (insertPairs (btInsert k v acc) rest).Perm (btInsert k v acc ++ rest) :=
      ih (btInsert k v acc) hnd2 hdisj2
    have step : insertPairs acc ((k, v) :: rest) = insertPairs (btInsert k v acc) rest := rfl
    rw [step]
    refine ihp.trans ?_
    have h1 : (btInsert k v acc ++ rest).Perm (((k, v) :: acc) ++ rest) :=
      (btInsert_perm k v acc hk).append_right rest
    refine h1.trans ?_
    simpa using List.perm_middle.symm

/-! ### Lemmas about the result-collection fold and the date range -/

theorem foldResults_all_ok :
    ∀ (res : List (Except Err ExchangeRate)) (acc : CacheMap),
      (∀ x ∈ res, ∃ r d, x = Except.ok r ∧ r.date = some d) →
      foldResults acc res = some (Except.ok ⟨insertPairs acc (resultPairs res)⟩) := by
  intro res
  induction res with
  | nil =>
    intro acc _
    simp [foldResults, resultPairs, insertPairs]
  | cons x rest ih =>
    intro acc hall
    obtain ⟨r, d, hx, hd⟩ := hall x (by simp)
    subst hx
    have hrp : resultPairs (Except.ok r :: rest) = (d, r) :: resultPairs rest := by
      simp [resultPairs, hd]
    rw [hrp]
    have hred : foldResults acc (Except.ok r :: rest) = foldResults (btInsert d r acc) rest := by
      simp [foldResults, hd]
    rw [hred]
    have step : insertPairs acc ((d, r) :: resultPairs rest)
        = insertPairs (btInsert d r acc) (resultPairs rest) := rfl
    rw [step]
    exact ih (btInsert d r acc) (fun y hy => hall y (by simp [hy]))

theorem foldResults_ne_none :
    ∀ (res : List (Except Err ExchangeRate)) (acc : CacheMap),
      (∀ r : ExchangeRate, Except.ok r ∈ res → (r.date).isSome = true) →
      foldResults acc res ≠ none := by
  intro res
  induction res with
  | nil =>
    intro acc _
    simp [foldResults]
  | cons x rest ih =>
    intro acc hall
    cases x with
    | error e => simp [foldResults]
    | ok r =>
      obtain ⟨d, hd⟩ := Option.isSome_iff_exists.mp (hall r (by simp))
      have hred : foldResults acc (Except.ok r :: rest) = foldResults (btInsert d r acc) rest := by
        simp [foldResults, hd]
      rw [hred]
      exact ih (btInsert d r acc) (fun y hy => hall y (by simp [hy]))

theorem foldResults_first_error :
    ∀ (res : List (Except Err ExchangeRate)) (acc : CacheMap) (err : Err),
      (∀ x ∈ res, (∃ r : ExchangeRate, x = Except.ok r ∧ (r.date).isSome = true) ∨
        x = Except.error err) →
      Except.error err ∈ res →
      foldResults acc res = some (Except.error err) := by
  intro res
  induction res with
  | nil =>
    intro acc err _ hmem
    simp at hmem
  | cons x rest ih =>
    intro acc err hall hmem
    rcases hall x (by simp) with ⟨r, hx, hd⟩ | hx
    · subst hx
      obtain ⟨d, hd2⟩ := Option.isSome_iff_exists.mp hd
      have hred : foldResults acc (Except.ok r :: rest) = foldResults (btInsert d r acc) rest := by
        simp [foldResults, hd2]
      rw [hred]
      have hmem2 : Except.error err ∈ rest := by
        rcases List.mem_cons.mp hmem with h | h
        · simp at h
        · exact h
      exact ih (btInsert d r acc) err (fun y hy => hall y (by simp [hy])) hmem2
    · subst hx
      simp [foldResults]

theorem resultPairs_keys :
    ∀ (ds : List Date) (fetch : Date → Except Err ExchangeRate),
      (∀ d ∈ ds, ∃ r, fetch d = Except.ok r ∧ r.date = some d) →
      (resultPairs (ds.map fetch)).map Prod.fst = ds := by
  intro ds
  induction ds with
  | nil =>
    intro fetch _
    simp [resultPairs]
  | cons d rest ih =>
    intro fetch hall
    obtain ⟨r, hf, hd⟩ := hall d (by simp)
    have hrp : resultPairs (fetch d :: rest.map fetch) = (d, r) :: resultPairs (rest.map fetch) := by
      simp [resultPairs, hf, hd]
    rw [List.map_cons, hrp, List.map_cons]
    rw [ih fetch (fun y hy => hall y (by simp [hy]))]

theorem dateRangeAux_length (n : Nat) : ∀ d : Date, (dateRangeAux n d).length = n := by
  induction n with
  | zero =>
    intro d
    rfl
  | succ m ih =>
    intro d
    simp [dateRangeAux, ih]

theorem le_of_mem_dateRangeAux (n : Nat) :
    ∀ d x : Date, x ∈ dateRangeAux n d → d ≤ x := by
  induction n with
  | zero =>
    intro d x h
    simp [dateRangeAux] at h
  | succ m ih =>
    intro d x h
    simp only [dateRangeAux] at h
    rcases List.mem_cons.mp h with h | h
    · exact le_of_eq h.symm
    · have h2 := ih (d + 1) x h
      linarith

theorem dateRangeAux_sorted (n : Nat) :
    ∀ d : Date, (dateRangeAux n d).Sorted (· < ·) := by
  induction n with
  | zero =>
    intro d
    simp [dateRangeAux]
  | succ m ih =>
    intro d
    simp only [dateRangeAux]
    rw [List.sorted_cons]
    refine ⟨?_, ih (d + 1)⟩
    intro b hb
    have h2 := le_of_mem_dateRangeAux m (d + 1) b hb
    linarith

theorem dateRange_sorted (s e : Date) : (dateRange s e).Sorted (· < ·) :=
  dateRangeAux_sorted _ s

theorem dateRange_nodup (s e : Date) : (dateRange s e).Nodup :=
  (dateRange_sorted s e).nodup

theorem dateRange_length (s e : Date) :
    (dateRange s e).length = (e - s + 1).toNat := by
  unfold dateRange
  rw [dateRangeAux_length]
  congr 1
  ring

theorem mapped_all_ok (fetch : Date → Except Err ExchangeRate) (s e : Date)
    (h : ∀ d ∈ dateRange s e, ∃ r, fetch d = Except.ok r ∧ r.date = some d) :
    ∀ x ∈ (dateRange s e).map fetch, ∃ r d2, x = Except.ok r ∧ r.date = some d2 := by
  intro x hx
  rw [List.mem_map] at hx
  obtain ⟨d, hd, hxd⟩ := hx
  obtain ⟨r, hf, hdate⟩ := h d hd
  exact ⟨r, d, by rw [← hxd, hf], hdate⟩

theorem series_complete (fetch : Date → Except Err ExchangeRate) (s e : Date)
    (h : ∀ d ∈ dateRange s e, ∃ r, fetch d = Except.ok r ∧ r.date = some d) :
    ∃ ts : TimeSeries,
      get_time_series_with_historical fetch s e = some (Except.ok ts) ∧
      ts.map.map Prod.fst = dateRange s e ∧
      (ts.map.map Prod.fst).Sorted (· < ·) := by
  have hfold := foldResults_all_ok ((dateRange s e).map fetch) [] (mapped_all_ok fetch s e h)
  have hkeysC := resultPairs_keys (dateRange s e) fetch h
  have hnd : ((resultPairs ((dateRange s e).map fetch)).map Prod.fst).Nodup := by
    rw [hkeysC]
    exact dateRange_nodup s e
  have hperm2 : (insertPairs [] (resultPairs ((dateRange s e).map fetch))).Perm
      (resultPairs ((dateRange s e).map fetch)) := by
    simpa using insertPairs_perm (resultPairs ((dateRange s e).map fetch)) [] hnd (by simp)
  have hkperm : ((insertPairs [] (resultPairs ((dateRange s e).map fetch))).map Prod.fst).Perm
      (dateRange s e) := by
    have h2 := hperm2.map Prod.fst
    rwa [hkeysC] at h2
  have hsort := insertPairs_sorted (resultPairs ((dateRange s e).map fetch)) [] (by simp)
  have hk : (insertPairs [] (resultPairs ((dateRange s e).map fetch))).map Prod.fst
      = dateRange s e :=
    List.eq_of_perm_of_sorted hkperm hsort (dateRange_sorted s e)
  exact ⟨⟨insertPairs [] (resultPairs ((dateRange s e).map fetch))⟩, hfold, hk,
    hk ▸ hsort⟩

theorem series_perm_eq (fetch : Date → Except Err ExchangeRate) (s e : Date)
    (h : ∀ d ∈ dateRange s e, ∃ r, fetch d = Except.ok r ∧ r.date = some d)
    (res : List (Except Err ExchangeRate))
    (hperm : res.Perm ((dateRange s e).map fetch)) :
    foldResults [] res = get_time_series_with_historical fetch s e := by
  have hallres : ∀ x ∈ res, ∃ r d2, x = Except.ok r ∧ r.date = some d2 :=
    fun x hx => mapped_all_ok fetch s e h x (hperm.mem_iff.mp hx)
  have h1 := foldResults_all_ok res [] hallres
  have h2 := foldResults_all_ok ((dateRange s e).map fetch) [] (mapped_all_ok fetch s e h)
  rw [h1]
  have h3 : get_time_series_with_historical fetch s e
      = some (Except.ok ⟨insertPairs [] (resultPairs ((dateRange s e).map fetch))⟩) := h2
  rw [h3]
  have hpairs : (resultPairs res).Perm (resultPairs ((dateRange s e).map fetch)) :=
    hperm.filterMap _
  have hkeysC := resultPairs_keys (dateRange s e) fetch h
  have hndC : ((resultPairs ((dateRange s e).map fetch)).map Prod.fst).Nodup := by
    rw [hkeysC]
    exact dateRange_nodup s e
  have hndR : ((resultPairs res).map Prod.fst).Nodup :=
    ((hpairs.map Prod.fst).nodup_iff).mpr hndC
  have hpermR : (insertPairs [] (resultPairs res)).Perm (resultPairs res) := by
    simpa using insertPairs_perm (resultPairs res) [] hndR (by simp)
  have hpermC : (insertPairs [] (resultPairs ((dateRange s e).map fetch))).Perm
      (resultPairs ((dateRange s e).map fetch)) := by
    simpa using insertPairs_perm (resultPairs ((dateRange s e).map fetch)) [] hndC (by simp)
  have hchain : (insertPairs [] (resultPairs res)).Perm
      (insertPairs [] (resultPairs ((dateRange s e).map fetch))) :=
    hpermR.trans (hpairs.trans hpermC.symm)
  have hsR : ((insertPairs [] (resultPairs res)).map Prod.fst).Sorted (· < ·) :=
    insertPairs_sorted (resultPairs res) [] (by simp)
  have hsC : ((insertPairs [] (resultPairs ((dateRange s e).map fetch))).map Prod.fst).Sorted
      (· < ·) :=
    insertPairs_sorted (resultPairs ((dateRange s e).map fetch)) [] (by simp)
  have hpR : (insertPairs [] (resultPairs res)).Sorted (fun p q => p.1 < q.1) :=
    List.pairwise_map.mp hsR
  have hpC : (insertPairs [] (resultPairs ((dateRange s e).map fetch))).Sorted
      (fun p q => p.1 < q.1) :=
    List.pairwise_map.mp hsC
  rw [List.eq_of_perm_of_sorted hchain hpR hpC]

theorem writerInv_init (m0 : CacheMap) : writerInv (writerInit m0) := by
  refine ⟨fun _ _ => rfl, ?_, ?_⟩
  · intro m hm
    simp [writerInit] at hm
  · intro m hm _
    simp [writerInit] at hm

theorem writerInv_step (s t : WriterState) (hstep : WriterStep s t) (hinv : writerInv s) :
    writerInv t := by
  obtain ⟨ih1, ih2, ih3⟩ := hinv
  cases hstep with
  | put d r =>
    refine ⟨?_, ?_, ?_⟩
    · intro h1 _
      simp at h1
    · intro m hm
      exact (Option.some.inj hm).symm
    · intro m _ hs
      simp at hs
  | remove d =>
    refine ⟨?_, ?_, ?_⟩
    · intro h1 _
      simp at h1
    · intro m hm
      exact (Option.some.inj hm).symm
    · intro m _ hs
      simp at hs
  | beginFlush m hm hfl =>
    refine ⟨?_, ?_, ?_⟩
    · intro _ h2
      simp at h2
    · intro m2 hm2
      simp at hm2
    · intro m2 hm2 _
      exact (Option.some.inj hm2) ▸ ih2 m hm
  | endFlush m hm =>
    refine ⟨?_, ?_, ?_⟩
    · intro h1 _
      exact ih3 m hm h1
    · intro m2 hm2
      exact ih2 m2 hm2
    · intro m2 hm2 _
      simp at hm2

theorem writerInv_reachable (init st : WriterState) (hinit : writerInv init)
    (h : WriterReachable init st) : writerInv st := by
  induction h with
  | refl => exact hinit
  | step hprev hstep ih => exact writerInv_step _ _ hstep ih

/-! ### Claim theorems -/

/-- C1, counterexample to the claim as stated: the series map is keyed by
the date carried in each response (`exchange_rate.date`), not by the
requested date, so a sequence of per-day fetch results all carrying date `0`
makes `get_time_series_with_historical 0 1` return (without error) a
TimeSeries whose map misses day `1` of the range. -/
theorem c1_counterexample :
    get_time_series_with_historical c1Fetch 0 1 = some (Except.ok ⟨[(0, c1Rate)]⟩) ∧
    (1 : Date) ∈ dateRange 0 1 ∧
    btLookup 1 [(0, c1Rate)] = none := by
  refine ⟨rfl, ?_, rfl⟩
  decide

/-- C1 (amended): whenever every day of `[start, end]` fetches successfully
with a rate carrying that day's date, `get_time_series_with_historical`
returns a TimeSeries whose key list is exactly the closed date range —
exactly one entry per calendar day, no missing day. -/
theorem c1_series_covers_range (fetch : Date → Except Err ExchangeRate) (s e : Date)
    (h : ∀ d ∈ dateRange s e, ∃ r, fetch d = Except.ok r ∧ r.date = some d) :
    ∃ ts : TimeSeries,
      get_time_series_with_historical fetch s e = some (Except.ok ts) ∧
      ts.map.map Prod.fst = dateRange s e := by
  obtain ⟨ts, h1, h2, _⟩ := series_complete fetch s e h
  exact ⟨ts, h1, h2⟩

/-- Witness for C1: a three-day range with well-dated responses yields a
series keyed by exactly those three days. -/
theorem c1_series_covers_range_witness :
    ∃ ts : TimeSeries,
      get_time_series_with_historical c1OkFetch 0 2 = some (Except.ok ts) ∧
      ts.map.map Prod.fst = dateRange 0 2 :=
  c1_series_covers_range c1OkFetch 0 2 (fun d _ =>
    ⟨{ date := some d, obtained_datetime := some 0, base := some "USD", rates := [] },
      rfl, rfl⟩)

/-- C2 (code bug): the pre-flight quota check computes
`expected_requests = end - start` (the `num_days` of the signed duration),
but the fetch issues one request per day of the closed range — `5` for the
5-day range `[0, 4]`.  With `requests_remaining = 1` the check does fail, but
with `expected = 4`, not `5` as the spec states; and with
`requests_remaining = 4` the check passes although 5 requests will be
issued. -/
theorem c2_quota_check_undercounts :
    expected_requests 0 4 = 4 ∧
    (dateRange 0 4).length = 5 ∧
    quota_check_fails 0 4 1 = true ∧
    quota_check_fails 0 4 4 = false := by
  refine ⟨rfl, ?_, rfl, rfl⟩
  decide

/-- C3: over any completion order of the per-day results, if exactly one day
of the range fails and every other day succeeds with a dated rate, the whole
operation returns exactly that day's error and no TimeSeries — never a
partial series of the successful subset. -/
theorem c3_single_failure_aborts (fetch : Date → Except Err ExchangeRate) (s e d : Date)
    (err : Err)
    (hd : d ∈ dateRange s e)
    (hfail : fetch d = Except.error err)
    (hok : ∀ d2 ∈ dateRange s e, d2 ≠ d → ∃ r, fetch d2 = Except.ok r ∧ (r.date).isSome = true)
    (res : List (Except Err ExchangeRate))
    (hperm : res.Perm ((dateRange s e).map fetch)) :
    foldResults [] res = some (Except.error err) ∧
    get_time_series_with_historical fetch s e = some (Except.error err) := by
  have hshape : ∀ x ∈ (dateRange s e).map fetch,
      (∃ r : ExchangeRate, x = Except.ok r ∧ (r.date).isSome = true) ∨
        x = Except.error err := by
    intro x hx
    rw [List.mem_map] at hx
    obtain ⟨d2, hd2, hxd⟩ := hx
    by_cases hcase : d2 = d
    · subst hcase
      right
      rw [← hxd, hfail]
    · obtain ⟨r, hf, hs⟩ := hok d2 hd2 hcase
      left
      exact ⟨r, by rw [← hxd, hf], hs⟩
  have hmem : Except.error err ∈ (dateRange s e).map fetch := by
    rw [List.mem_map]
    exact ⟨d, hd, hfail⟩
  constructor
  · exact foldResults_first_error res [] err (fun x hx => hshape x (hperm.mem_iff.mp hx))
      (hperm.mem_iff.mpr hmem)
  · exact foldResults_first_error ((dateRange s e).map fetch) [] err hshape hmem

/-- Witness for C3: range `[0, 2]`, day `1` fails with `"http 500"`, the
other days succeed; the operation returns exactly that error. -/
theorem c3_single_failure_aborts_witness :
    foldResults [] ((dateRange 0 2).map c3Fetch) = some (Except.error "http 500") ∧
    get_time_series_with_historical c3Fetch 0 2 = some (Except.error "http 500") :=
  c3_single_failure_aborts c3Fetch 0 2 1 "http 500" (by decide) rfl
    (fun d2 _ hne =>
      ⟨{ date := some d2, obtained_datetime := some 0, base := some "USD", rates := [] },
        by simp [c3Fetch, hne], rfl⟩)
    ((dateRange 0 2).map c3Fetch) (List.Perm.refl _)

/-- C4, counterexample to the claim as stated: over the range `[0, 1]` both
days fetch successfully, but both responses carry date `0`; `BTreeMap::insert`
replaces on an equal key, so the last-completed response wins and the two
completion orders fold to different TimeSeries — the output is not identical
for every permutation of a set of successfully fetched rates. -/
theorem c4_counterexample :
    [Except.ok c4RateB, Except.ok c4RateA].Perm ((dateRange 0 1).map c4CollideFetch) ∧
    foldResults [] ((dateRange 0 1).map c4CollideFetch) = some (Except.ok ⟨[(0, c4RateB)]⟩) ∧
    foldResults [] [Except.ok c4RateB, Except.ok c4RateA] = some (Except.ok ⟨[(0, c4RateA)]⟩) ∧
    (⟨[(0, c4RateB)]⟩ : TimeSeries) ≠ ⟨[(0, c4RateA)]⟩ := by
  refine ⟨?_, rfl, rfl, ?_⟩
  · have hmap : (dateRange 0 1).map c4CollideFetch
        = [Except.ok c4RateA, Except.ok c4RateB] := rfl
    rw [hmap]
    exact List.Perm.swap (Except.ok c4RateA) (Except.ok c4RateB) []
  · decide

/-- C4 (amended): when every day of the range fetches successfully with a
rate carrying that day's date — so the response dates are pairwise distinct
— the folded TimeSeries is the same for every completion order of the
results, and its entries are keyed in strictly ascending date order. -/
theorem c4_completion_order_irrelevant (fetch : Date → Except Err ExchangeRate) (s e : Date)
    (h : ∀ d ∈ dateRange s e, ∃ r, fetch d = Except.ok r ∧ r.date = some d)
    (res1 res2 : List (Except Err ExchangeRate))
    (h1 : res1.Perm ((dateRange s e).map fetch))
    (h2 : res2.Perm ((dateRange s e).map fetch)) :
    foldResults [] res1 = foldResults [] res2 ∧
    ∃ ts : TimeSeries,
      get_time_series_with_historical fetch s e = some (Except.ok ts) ∧
      (ts.map.map Prod.fst).Sorted (· < ·) := by
  constructor
  · rw [series_perm_eq fetch s e h res1 h1, series_perm_eq fetch s e h res2 h2]
  · obtain ⟨ts, ha, _, hc⟩ := series_complete fetch s e h
    exact ⟨ts, ha, hc⟩

/-- Witness for C4: the two completion orders of a two-day range fold to the
same TimeSeries, whose keys are sorted. -/
theorem c4_completion_order_irrelevant_witness :
    foldResults [] [c4Fetch 1, c4Fetch 0] = foldResults [] [c4Fetch 0, c4Fetch 1] ∧
    ∃ ts : TimeSeries,
      get_time_series_with_historical c4Fetch 0 1 = some (Except.ok ts) ∧
      (ts.map.map Prod.fst).Sorted (· < ·) :=
  c4_completion_order_irrelevant c4Fetch 0 1
    (fun d _ =>
      ⟨{ date := some d, obtained_datetime := some 7, base := some "EUR", rates := [] },
        rfl, rfl⟩)
    [c4Fetch 1, c4Fetch 0] [c4Fetch 0, c4Fetch 1]
    (by
      have hmap : (dateRange 0 1).map c4Fetch = [c4Fetch 0, c4Fetch 1] := rfl
      rw [hmap]
      exact List.Perm.swap (c4Fetch 0) (c4Fetch 1) [])
    (by
      have hmap : (dateRange 0 1).map c4Fetch = [c4Fetch 0, c4Fetch 1] := rfl
      rw [hmap])

/-- C5, counterexample to the claim as stated: the range `[0, 0]` is fully
covered by a cache holding day `0`, yet `get_time_series_with_historical`
still issues its one rate-source request for day `0` — the pipeline consults
no cache, so the request count is never zero for a non-empty range. -/
theorem c5_counterexample :
    get_exchange_rate (put_exchange_rate [] 0 c5Rate).2 0 = some c5Rate ∧
    rateSourceRequests 0 0 = [0] ∧
    (rateSourceRequests 0 0).length ≠ 0 := by
  refine ⟨rfl, rfl, ?_⟩
  decide

/-- C5 (amended): `get_time_series_with_historical` consults no cache: for
every range with `start ≤ end` it issues exactly one rate-source request per
calendar day of `[start, end]` — `end - start + 1` requests, never zero —
regardless of any cache state. -/
theorem c5_one_request_per_day (s e : Date) (h : s ≤ e) :
    (rateSourceRequests s e).length = (e - s + 1).toNat ∧
    rateSourceRequests s e ≠ [] := by
  have hlen : (rateSourceRequests s e).length = (e - s + 1).toNat := dateRange_length s e
  refine ⟨hlen, ?_⟩
  intro hemp
  rw [hemp] at hlen
  have h2 : (1 : Int) ≤ e - s + 1 := by linarith
  have h3 := Int.toNat_of_nonneg (by linarith : (0 : Int) ≤ e - s + 1)
  simp at hlen
  omega

/-- Witness for C5: the 5-day range `[0, 4]` issues 5 requests. -/
theorem c5_one_request_per_day_witness :
    (rateSourceRequests 0 4).length = ((4 : Int) - 0 + 1).toNat ∧
    rateSourceRequests 0 4 ≠ [] :=
  c5_one_request_per_day 0 4 (by decide)

/-- C6: on the spec-modelled cache operations, `put d r` then `get d`
returns `r`; `remove d` then `get d` returns nothing; and `put`/`remove`
each return the previously stored value for `d`. -/
theorem c6_cache_roundtrip (c : CacheMap) (d : Date) (r : ExchangeRate) :
    get_exchange_rate (put_exchange_rate c d r).2 d = some r ∧
    get_exchange_rate (remove_exchange_rate c d).2 d = none ∧
    (put_exchange_rate c d r).1 = get_exchange_rate c d ∧
    (remove_exchange_rate c d).1 = get_exchange_rate c d := by
  refine ⟨?_, ?_, rfl, rfl⟩
  · exact btLookup_btInsert d r c
  · exact btLookup_btErase d c

/-- C7: in the spec-modelled coalescing-writer transition system, every
state reachable from a freshly opened cache in which the writer is idle (no
flush in flight) and the single pending-write slot is drained has its
on-disk snapshot equal to the in-memory map — the state after the last
`put`/`remove` — never an intermediate state of a burst. -/
theorem c7_idle_disk_matches_mem (m0 : CacheMap) (st : WriterState)
    (hreach : WriterReachable (writerInit m0) st)
    (hslot : st.slot = none) (hflush : st.flushing = none) :
    st.disk = st.mem :=
  (writerInv_reachable (writerInit m0) st (writerInv_init m0) hreach).1 hslot hflush

/-- Witness for C7: the trace `put 2 c7Rate; beginFlush; endFlush` from an
empty cache ends idle with the snapshot of the put on disk. -/
theorem c7_idle_disk_matches_mem_witness : c7s3.disk = c7s3.mem := by
  have h1 : WriterStep (writerInit []) c7s1 := WriterStep.put (writerInit []) 2 c7Rate
  have h2 : WriterStep c7s1 c7s2 := WriterStep.beginFlush c7s1 (btInsert 2 c7Rate []) rfl rfl
  have h3 : WriterStep c7s2 c7s3 := WriterStep.endFlush c7s2 (btInsert 2 c7Rate []) rfl
  have hr : WriterReachable (writerInit []) c7s3 :=
    WriterReachable.step (WriterReachable.step (WriterReachable.step WriterReachable.refl h1) h2) h3
  exact c7_idle_disk_matches_mem [] c7s3 hr rfl rfl

/-- C8: `open` succeeds with an empty map when nothing (or no regular file)
is at the path, succeeds with the deserialized snapshot when a decodable
file exists, and propagates the error when deserialization or the filesystem
open fails. -/
theorem c8_open_behaviour (fs : Fs) :
    (fs.fileExists = false → openCache fs = Except.ok []) ∧
    (∀ hdl m, fs.fileExists = true → fs.isFile = true → fs.openFile = Except.ok hdl →
      fs.deserializeFrom hdl = Except.ok m → openCache fs = Except.ok m) ∧
    (∀ hdl err, fs.fileExists = true → fs.isFile = true → fs.openFile = Except.ok hdl →
      fs.deserializeFrom hdl = Except.error err → openCache fs = Except.error err) ∧
    (∀ err, fs.fileExists = true → fs.isFile = true → fs.openFile = Except.error err →
      openCache fs = Except.error err) := by
  refine ⟨?_, ?_, ?_, ?_⟩
  · intro h
    simp [openCache, h]
  · intro hdl m h1 h2 h3 h4
    simp [openCache, h1, h2, h3, h4]
  · intro hdl err h1 h2 h3 h4
    simp [openCache, h1, h2, h3, h4]
  · intro err h1 h2 h3
    simp [openCache, h1, h2, h3]

/-- Witness for C8: the four scenarios at concrete filesystems. -/
theorem c8_open_behaviour_witness :
    openCache fsAbsent = Except.ok [] ∧
    openCache fsFound = Except.ok [(5, c8Rate)] ∧
    openCache fsCorrupt = Except.error "bincode: invalid" ∧
    openCache fsDenied = Except.error "permission denied" :=
  ⟨(c8_open_behaviour fsAbsent).1 rfl,
    (c8_open_behaviour fsFound).2.1 7 [(5, c8Rate)] rfl rfl rfl rfl,
    (c8_open_behaviour fsCorrupt).2.2.1 7 "bincode: invalid" rfl rfl rfl rfl,
    (c8_open_behaviour fsDenied).2.2.2 "permission denied" rfl rfl rfl⟩

/-- C10: every `ExchangeRate` produced by the `OpenExchangeRate` conversion
has `date = Some _` (derived from the response timestamp), so a pipeline
whose successful results all come from that conversion never reaches the
`.expect` panic branch of `get_time_series_with_historical`. -/
theorem c10_converted_date_present (o : OpenExchangeRate) (now : Nat)
    (fetch : Date → Except Err ExchangeRate) (s e : Date)
    (h : ∀ d r, fetch d = Except.ok r → ∃ o2 n2, r = OpenExchangeRate.into o2 n2) :
    ((OpenExchangeRate.into o now).date).isSome = true ∧
    get_time_series_with_historical fetch s e ≠ none := by
  constructor
  · rfl
  · show foldResults [] ((dateRange s e).map fetch) ≠ none
    apply foldResults_ne_none
    intro r hr
    rw [List.mem_map] at hr
    obtain ⟨d, _, hd⟩ := hr
    obtain ⟨o2, n2, hr2⟩ := h d r hd
    rw [hr2]
    rfl

/-- Witness for C10: a fetch returning only converted provider responses
over the range `[0, 3]`. -/
theorem c10_converted_date_present_witness :
    ((OpenExchangeRate.into c10Oer 42).date).isSome = true ∧
    get_time_series_with_historical c10Fetch 0 3 ≠ none :=
  c10_converted_date_present c10Oer 42 c10Fetch 0 3
    (fun _ _ hr => ⟨c10Oer, 42, (Except.ok.inj hr).symm⟩)
